import Mathlib

/-!
Verification of the BSP-to-MAP converter (src/generate_map.py) against its
specification.  The converter's numeric code is modelled over exact rationals:
Python float arithmetic is idealised as exact arithmetic, and the square roots
taken by vector normalisation are represented through an exact rational square
root, so every definition is computable and every concrete run of the model
can be evaluated by the kernel.  Comparisons of Euclidean lengths against
nonnegative constants are translated into the equivalent comparisons of
squared lengths against squared constants.
-/

/-- A 3-component vector over exact rationals (models mathutils.Vector). -/
structure Vec3 where
  x : ℚ
  y : ℚ
  z : ℚ
deriving DecidableEq

/-- Componentwise vector addition. -/
def Vec3.add (a b : Vec3) : Vec3 := ⟨a.x + b.x, a.y + b.y, a.z + b.z⟩

/-- Componentwise vector subtraction. -/
def Vec3.sub (a b : Vec3) : Vec3 := ⟨a.x - b.x, a.y - b.y, a.z - b.z⟩

/-- Scalar multiple of a vector. -/
def Vec3.smul (c : ℚ) (a : Vec3) : Vec3 := ⟨c * a.x, c * a.y, c * a.z⟩

/-- Dot product. -/
def Vec3.dot (a b : Vec3) : ℚ := a.x * b.x + a.y * b.y + a.z * b.z

/-- Squared Euclidean length (`vec.length ** 2`). -/
def Vec3.norm2 (a : Vec3) : ℚ := a.x ^ 2 + a.y ^ 2 + a.z ^ 2

/-- Exact rational square root: `some l` with `l ≥ 0`, `l^2 = q` when such a
rational exists, `none` otherwise.  Used to model the real square root taken
by `normalize_vector`; the geometric pipeline is therefore defined exactly on
inputs whose intermediate lengths are rational. -/
def ratSqrt (q : ℚ) : Option ℚ :=
  if q < 0 then none
  else if Nat.sqrt q.num.toNat * Nat.sqrt q.num.toNat = q.num.toNat ∧
          Nat.sqrt q.den * Nat.sqrt q.den = q.den then
    some ((Nat.sqrt q.num.toNat : ℚ) / (Nat.sqrt q.den : ℚ))
  else none

/-- Python's built-in `round` on a rational: nearest integer, ties to even. -/
def pyRound (q : ℚ) : ℤ :=
  if q - ⌊q⌋ < 1/2 then ⌊q⌋
  else if 1/2 < q - ⌊q⌋ then ⌊q⌋ + 1
  else if ⌊q⌋ % 2 = 0 then ⌊q⌋ else ⌊q⌋ + 1

/-- `snap_to_grid` (generate_map.py line 69): `round(value / grid_size) * grid_size`. -/
def snap_to_grid (value grid_size : ℚ) : ℚ :=
  (pyRound (value / grid_size) : ℚ) * grid_size

/-- `round_coordinate` (line 73): `Decimal(str(value)).quantize(10**-decimals,
ROUND_HALF_UP)` — round to `decimals` decimal places, ties away from zero. -/
def round_coordinate (value : ℚ) (decimals : ℕ) : ℚ :=
  let m : ℚ := 10 ^ decimals
  if 0 ≤ value then (⌊value * m + 1/2⌋ : ℚ) / m
  else -((⌊-value * m + 1/2⌋ : ℚ) / m)

/-- `normalize_vector` (line 80): divide by the length when it exceeds 0.001,
else fall back to (0,0,1).  `length > 0.001` is translated as
`norm2 > 0.001^2`; `none` only when the needed square root is irrational. -/
def normalize_vector (vec : Vec3) : Option Vec3 :=
  if Vec3.norm2 vec > (1/1000) ^ 2 then
    (ratSqrt (Vec3.norm2 vec)).map fun length =>
      ⟨vec.x / length, vec.y / length, vec.z / length⟩
  else some ⟨0, 0, 1⟩

/-- `cross_product` (line 87). -/
def cross_product (a b : Vec3) : Vec3 :=
  ⟨a.y * b.z - a.z * b.y, a.z * b.x - a.x * b.z, a.x * b.y - a.y * b.x⟩

/-- `COMPILE_EPSILON` (line 24): the constant minimum edge size. -/
def COMPILE_EPSILON : ℚ := 1/8

/-- `validate_brush_geometry` (line 95): every pairwise edge among the three
points must have length ≥ COMPILE_EPSILON (`edge.length < eps` translated as
`norm2 edge < eps^2`).  Pairs in source order: (0,1), (0,2), (1,2). -/
def validate_brush_geometry (p1 p2 p3 : Vec3) : Bool :=
  !(decide (Vec3.norm2 (Vec3.sub p2 p1) < COMPILE_EPSILON ^ 2) ||
    decide (Vec3.norm2 (Vec3.sub p3 p1) < COMPILE_EPSILON ^ 2) ||
    decide (Vec3.norm2 (Vec3.sub p3 p2) < COMPILE_EPSILON ^ 2))

/-- Characters stripped by Python's `str.strip()`. -/
def pyWhitespace (c : Char) : Bool :=
  c = ' ' || c = '\t' || c = '\n' || c = '\r' || c = '\x0b' || c = '\x0c'

/-- Python `str.strip()`: drop leading and trailing whitespace. -/
def pyStrip (s : List Char) : List Char :=
  ((s.dropWhile pyWhitespace).reverse.dropWhile pyWhitespace).reverse

/-- Python `name.replace('\x00', '')`: drop every NUL character. -/
def removeNul (s : List Char) : List Char := s.filter (fun c => c ≠ '\x00')

/-- Python `str.upper()` on ASCII texture names. -/
def pyUpper (s : List Char) : List Char := s.map Char.toUpper

/-- The reserved texture tokens of line 116. -/
def reservedNames : List (List Char) :=
  ["CLIP".toList, "NODRAW".toList, "SKIP".toList, "HINT".toList, "AREAPORTAL".toList]

/-- `fix_texture_name` (line 105): empty name becomes "MISSING"; otherwise the
name is NUL-stripped and whitespace-trimmed, '*'-names pass through, reserved
tokens are uppercased, and anything else is returned as stripped. -/
def fix_texture_name (name : List Char) : List Char :=
  if name = [] then "MISSING".toList
  else
    let name := pyStrip (removeNul name)
    if name.head? = some '*' then name
    else if pyUpper name ∈ reservedNames then pyUpper name
    else name

/-- `SimplePlane` (line 42): normal, signed distance, axis-type tag. -/
structure SimplePlane where
  normal : Vec3
  distance : ℚ
  type : ℕ
deriving DecidableEq

/-- `SimpleBrush` (line 48). -/
structure SimpleBrush where
  first_side : ℕ
  num_sides : ℕ
  contents : ℕ
deriving DecidableEq

/-- `SimpleBrushSide` (line 54). -/
structure SimpleBrushSide where
  plane_num : ℕ
  tex_info : ℕ
deriving DecidableEq

/-- `SimpleTexInfo` (line 59). -/
structure SimpleTexInfo where
  u_axis : Vec3
  u_offset : ℚ
  v_axis : Vec3
  v_offset : ℚ
  flags : ℕ
  value : ℕ
  texture_name : List Char
deriving DecidableEq

/-- The operator's configuration surface (lines 132-166) as consumed by the
brush-processing loop. -/
structure Config where
  grid_snap : ℚ
  coordinate_decimals : ℕ
  min_edge_length : ℚ
  skip_problem_brushes : Bool
deriving DecidableEq

/-- The property defaults: grid 0.25, 3 decimals, min edge 0.125, skip on. -/
def defaultConfig : Config := ⟨1/4, 3, 1/8, true⟩

/-- Snap all three coordinates of a vector to the grid (lines 384-410). -/
def snapVec (g : ℚ) (v : Vec3) : Vec3 :=
  ⟨snap_to_grid v.x g, snap_to_grid v.y g, snap_to_grid v.z g⟩

/-- Round all three coordinates of a vector (lines 421-435, 448-457). -/
def roundVec (v : Vec3) (d : ℕ) : Vec3 :=
  ⟨round_coordinate v.x d, round_coordinate v.y d, round_coordinate v.z d⟩

/-- All stages of the per-face point computation of lines 367-435: the points
as created from the snapped center (`pre*`), after their own grid snap
(`snap*`), the validation verdict, and after decimal rounding (`out*`). -/
structure FaceCalc where
  pre1 : Vec3
  pre2 : Vec3
  pre3 : Vec3
  snap1 : Vec3
  snap2 : Vec3
  snap3 : Vec3
  validOk : Bool
  out1 : Vec3
  out2 : Vec3
  out3 : Vec3
deriving DecidableEq

/-- The per-face geometry reconstruction (lines 367-435): normalise the plane
normal, pick the tangent seed by `abs(normal.z) < 0.9`, build the orthonormal
tangents by normalised cross products, snap the plane's closest-to-origin
point to the grid, offset by ±256 along the tangents, snap, validate, round. -/
def computeFaceCalc (cfg : Config) (plane : SimplePlane) : Option FaceCalc :=
  match normalize_vector plane.normal with
  | none => none
  | some normal =>
    match normalize_vector (cross_product normal
        (if |normal.z| < 9/10 then ⟨0, 0, 1⟩ else ⟨1, 0, 0⟩)) with
    | none => none
    | some tangent1 =>
      match normalize_vector (cross_product normal tangent1) with
      | none => none
      | some tangent2 =>
        let center := snapVec cfg.grid_snap (Vec3.smul plane.distance normal)
        let p1 := Vec3.add center (Vec3.smul 256 tangent1)
        let p2 := Vec3.sub center (Vec3.smul 256 tangent1)
        let p3 := Vec3.add center (Vec3.smul 256 tangent2)
        let s1 := snapVec cfg.grid_snap p1
        let s2 := snapVec cfg.grid_snap p2
        let s3 := snapVec cfg.grid_snap p3
        some ⟨p1, p2, p3, s1, s2, s3, validate_brush_geometry s1 s2 s3,
              roundVec s1 cfg.coordinate_decimals,
              roundVec s2 cfg.coordinate_decimals,
              roundVec s3 cfg.coordinate_decimals⟩

/-- The texture directive emitted on a face line (lines 443-464). -/
structure TexDirective where
  name : List Char
  u_axis : Vec3
  u_offset : ℚ
  v_axis : Vec3
  v_offset : ℚ
deriving DecidableEq

/-- A face's texture part: a resolved directive, or the literal default line
`MISSING [ 1 0 0 0 ] [ 0 -1 0 0 ] 0 1 1` of line 466. -/
inductive FaceTex where
  | directive (t : TexDirective)
  | missingDefault
deriving DecidableEq

/-- One emitted face line: three rounded points plus its texture part. -/
structure Face where
  p1 : Vec3
  p2 : Vec3
  p3 : Vec3
  tex : FaceTex
deriving DecidableEq

/-- Build the emitted face line from the computed points and the side's
resolved texture info (lines 437-466): axes rounded to 3 decimals, offsets to
2, name run through `fix_texture_name`; with no texture info the fixed default
directive is used. -/
def mkFace (fc : FaceCalc) (otex : Option SimpleTexInfo) : Face :=
  match otex with
  | some tex =>
      { p1 := fc.out1, p2 := fc.out2, p3 := fc.out3,
        tex := FaceTex.directive
          { name := fix_texture_name tex.texture_name
            u_axis := roundVec tex.u_axis 3
            u_offset := round_coordinate tex.u_offset 2
            v_axis := roundVec tex.v_axis 3
            v_offset := round_coordinate tex.v_offset 2 } }
  | none => { p1 := fc.out1, p2 := fc.out2, p3 := fc.out3, tex := FaceTex.missingDefault }

/-- Side resolution (lines 346-359): for each of the brush's `num_sides`
slots, a side index past the side array contributes nothing; a side whose
plane index is out of range contributes nothing; otherwise the plane is paired
with the texture info when its index is in range, `none` otherwise.  The two
parallel Python lists `brush_planes` / `brush_texinfos` are kept as one list
of pairs (they are appended in lockstep). -/
def resolveSides (planes : List SimplePlane) (brush_sides : List SimpleBrushSide)
    (texinfos : List SimpleTexInfo) (brush : SimpleBrush) :
    List (SimplePlane × Option SimpleTexInfo) :=
  (List.range brush.num_sides).filterMap fun i =>
    match brush_sides[brush.first_side + i]? with
    | some side =>
        match planes[side.plane_num]? with
        | some pl => some (pl, texinfos[side.tex_info]?)
        | none => none
    | none => none

/-- The face loop of lines 367-468: faces are computed in order; a face that
fails validation while `skip_problem_brushes` is set invalidates the whole
brush (inner `none`); otherwise every face is emitted.  The outer `none` marks
an input outside the exact-rational model. -/
def processFaces (cfg : Config) :
    List (SimplePlane × Option SimpleTexInfo) → Option (Option (List Face))
  | [] => some (some [])
  | (pl, otex) :: rest =>
    match computeFaceCalc cfg pl with
    | none => none
    | some fc =>
      if !fc.validOk && cfg.skip_problem_brushes then some none
      else
        match processFaces cfg rest with
        | none => none
        | some none => some none
        | some (some faces) => some (some (mkFace fc otex :: faces))

/-- `CONTENTS_AREAPORTAL` (line 34). -/
def CONTENTS_AREAPORTAL : ℕ := 0x8000

/-- What one parsed brush contributes to the output and the statistics. -/
inductive BrushOutcome where
  | emitted (faces : List Face)
  | skippedCount
  | areaportalCount
  | dropped
deriving DecidableEq

/-- The per-brush body of the loop at lines 330-485: fewer than 4 sides or
zero contents count as skipped; the areaportal bit counts separately; then
sides are resolved, and only a brush with at least 4 resolved planes is
processed — one with fewer is silently dropped with no counter touched.  A
brush whose face loop invalidates it counts as skipped; otherwise its faces
are emitted. -/
def processBrush (cfg : Config) (planes : List SimplePlane)
    (brush_sides : List SimpleBrushSide) (texinfos : List SimpleTexInfo)
    (brush : SimpleBrush) : Option BrushOutcome :=
  if brush.num_sides < 4 then some BrushOutcome.skippedCount
  else if brush.contents = 0 then some BrushOutcome.skippedCount
  else if brush.contents &&& CONTENTS_AREAPORTAL ≠ 0 then some BrushOutcome.areaportalCount
  else
    let resolved := resolveSides planes brush_sides texinfos brush
    if 4 ≤ resolved.length then
      match processFaces cfg resolved with
      | none => none
      | some none => some BrushOutcome.skippedCount
      | some (some faces) => some (BrushOutcome.emitted faces)
    else some BrushOutcome.dropped

/-- The reported statistics (valid, skipped, areaportal-skipped). -/
structure ConvStats where
  valid : ℕ
  skipped : ℕ
  areaportal : ℕ
deriving DecidableEq

/-- The whole brush loop: emitted brushes in original order plus the
accumulated statistics. -/
def convertBrushes (cfg : Config) (planes : List SimplePlane)
    (brush_sides : List SimpleBrushSide) (texinfos : List SimpleTexInfo) :
    List SimpleBrush → Option (List (List Face) × ConvStats)
  | [] => some ([], ⟨0, 0, 0⟩)
  | b :: rest =>
    match processBrush cfg planes brush_sides texinfos b with
    | none => none
    | some outcome =>
      match convertBrushes cfg planes brush_sides texinfos rest with
      | none => none
      | some (emitted, stats) =>
        match outcome with
        | BrushOutcome.emitted faces =>
            some (faces :: emitted, { stats with valid := stats.valid + 1 })
        | BrushOutcome.skippedCount =>
            some (emitted, { stats with skipped := stats.skipped + 1 })
        | BrushOutcome.areaportalCount =>
            some (emitted, { stats with areaportal := stats.areaportal + 1 })
        | BrushOutcome.dropped => some (emitted, stats)

/-- Python's clamping slice `data[off : off + len]` (lines 221, 227, 240, 270,
283): bytes are abstracted as naturals. -/
def lumpSlice (data : List ℕ) (off len : ℕ) : List ℕ := (data.drop off).take len

/-- The fixed-size record loop used for every binary lump (e.g. lines 228-234
for planes): `len // size` iterations, each taking one record's bytes when a
full record remains. -/
def parseRecords (bytes : List ℕ) (size : ℕ) : List (List ℕ) :=
  (List.range (bytes.length / size)).filterMap fun i =>
    if i * size + size ≤ bytes.length then some ((bytes.drop (i * size)).take size) else none

/-! ### Basic facts about the numeric helpers -/

theorem ratSqrt_eq_some {q l : ℚ} (h : ratSqrt q = some l) : 0 ≤ l ∧ l ^ 2 = q := by
  unfold ratSqrt at h
  split at h
  · exact Option.noConfusion h
  · rename_i hq
    split at h
    · rename_i hsq
      obtain ⟨hn, hd⟩ := hsq
      obtain rfl : ((Nat.sqrt q.num.toNat : ℚ) / (Nat.sqrt q.den : ℚ)) = l :=
        Option.some_inj.mp h
      refine ⟨by positivity, ?_⟩
      have hq0 : (0 : ℚ) ≤ q := le_of_not_lt hq
      have hdnz : q.den ≠ 0 := q.den_nz
      have hsd : (Nat.sqrt q.den : ℚ) ≠ 0 := by
        intro h0
        have : Nat.sqrt q.den = 0 := by exact_mod_cast h0
        rw [this] at hd
        simp at hd
        exact hdnz hd.symm
      have hnum : ((q.num.toNat : ℕ) : ℚ) = (q.num : ℚ) := by
        exact_mod_cast Int.toNat_of_nonneg (Rat.num_nonneg.mpr hq0)
      calc ((Nat.sqrt q.num.toNat : ℚ) / (Nat.sqrt q.den : ℚ)) ^ 2
          = ((Nat.sqrt q.num.toNat * Nat.sqrt q.num.toNat : ℕ) : ℚ) /
            ((Nat.sqrt q.den * Nat.sqrt q.den : ℕ) : ℚ) := by push_cast; ring
        _ = ((q.num.toNat : ℕ) : ℚ) / ((q.den : ℕ) : ℚ) := by rw [hn, hd]
        _ = (q.num : ℚ) / ((q.den : ℕ) : ℚ) := by rw [hnum]
        _ = q := Rat.num_div_den q
    · exact Option.noConfusion h

theorem ratSqrt_one : ratSqrt 1 = some 1 := by
  unfold ratSqrt
  norm_num

theorem normalize_norm2 {v u : Vec3} (h : normalize_vector v = some u) : Vec3.norm2 u = 1 := by
  unfold normalize_vector at h
  split at h
  · rename_i hv
    cases hs : ratSqrt (Vec3.norm2 v) with
    | none => rw [hs] at h; exact Option.noConfusion h
    | some l =>
      rw [hs] at h
      obtain ⟨hl0, hl2⟩ := ratSqrt_eq_some hs
      simp only [Option.map_some'] at h
      obtain rfl : (⟨v.x / l, v.y / l, v.z / l⟩ : Vec3) = u := Option.some_inj.mp h
      have hl : l ≠ 0 := by
        intro h0
        rw [h0] at hl2
        simp at hl2
        rw [← hl2] at hv
        norm_num at hv
      simp only [Vec3.norm2] at hl2 ⊢
      field_simp
      linarith [hl2]
  · obtain rfl : (⟨0, 0, 1⟩ : Vec3) = u := Option.some_inj.mp h
    simp [Vec3.norm2]

theorem normalize_cases {v u : Vec3} (h : normalize_vector v = some u) :
    (∃ c : ℚ, u = Vec3.smul c v) ∨ (u = ⟨0, 0, 1⟩ ∧ Vec3.norm2 v ≤ (1/1000) ^ 2) := by
  unfold normalize_vector at h
  split at h
  · left
    cases hs : ratSqrt (Vec3.norm2 v) with
    | none => rw [hs] at h; exact Option.noConfusion h
    | some l =>
      rw [hs] at h
      simp only [Option.map_some'] at h
      obtain rfl : (⟨v.x / l, v.y / l, v.z / l⟩ : Vec3) = u := Option.some_inj.mp h
      exact ⟨1 / l, by simp [Vec3.smul]; refine ⟨by ring, by ring, by ring⟩⟩
  · rename_i hv
    right
    exact ⟨(Option.some_inj.mp h).symm, le_of_not_lt hv⟩

theorem normalize_of_norm2_one {v : Vec3} (h : Vec3.norm2 v = 1) :
    normalize_vector v = some v := by
  unfold normalize_vector
  rw [h, if_pos (by norm_num), ratSqrt_one]
  simp

/-! ### Vector algebra -/

theorem Vec3.dot_cross_left (a b : Vec3) : Vec3.dot a (cross_product a b) = 0 := by
  simp only [Vec3.dot, cross_product]
  ring

theorem Vec3.dot_cross_right (a b : Vec3) : Vec3.dot b (cross_product a b) = 0 := by
  simp only [Vec3.dot, cross_product]
  ring

theorem Vec3.norm2_cross (a b : Vec3) :
    Vec3.norm2 (cross_product a b) = Vec3.norm2 a * Vec3.norm2 b - Vec3.dot a b ^ 2 := by
  simp only [Vec3.norm2, Vec3.dot, cross_product]
  ring

theorem Vec3.dot_smul_right (c : ℚ) (a b : Vec3) :
    Vec3.dot a (Vec3.smul c b) = c * Vec3.dot a b := by
  simp only [Vec3.dot, Vec3.smul]
  ring

theorem Vec3.dot_add_right (a b c : Vec3) :
    Vec3.dot a (Vec3.add b c) = Vec3.dot a b + Vec3.dot a c := by
  simp only [Vec3.dot, Vec3.add]
  ring

theorem Vec3.dot_sub_right (a b c : Vec3) :
    Vec3.dot a (Vec3.sub b c) = Vec3.dot a b - Vec3.dot a c := by
  simp only [Vec3.dot, Vec3.sub]
  ring

theorem Vec3.abs_dot_le {N : Vec3} (w : Vec3) (h : Vec3.norm2 N = 1) :
    |Vec3.dot N w| ≤ |w.x| + |w.y| + |w.z| := by
  have hx : |N.x| ≤ 1 := by
    rw [← sq_le_one_iff_abs_le_one]
    simp only [Vec3.norm2] at h
    nlinarith [sq_nonneg N.y, sq_nonneg N.z]
  have hy : |N.y| ≤ 1 := by
    rw [← sq_le_one_iff_abs_le_one]
    simp only [Vec3.norm2] at h
    nlinarith [sq_nonneg N.x, sq_nonneg N.z]
  have hz : |N.z| ≤ 1 := by
    rw [← sq_le_one_iff_abs_le_one]
    simp only [Vec3.norm2] at h
    nlinarith [sq_nonneg N.x, sq_nonneg N.y]
  calc |Vec3.dot N w| ≤ |N.x * w.x| + |N.y * w.y| + |N.z * w.z| := abs_add_three _ _ _
    _ = |N.x| * |w.x| + |N.y| * |w.y| + |N.z| * |w.z| := by rw [abs_mul, abs_mul, abs_mul]
    _ ≤ |w.x| + |w.y| + |w.z| := by
        nlinarith [abs_nonneg w.x, abs_nonneg w.y, abs_nonneg w.z]

/-! ### Rounding and snapping error bounds -/

theorem pyRound_abs_sub_le (q : ℚ) : |(pyRound q : ℚ) - q| ≤ 1 / 2 := by
  have h0 : (⌊q⌋ : ℚ) ≤ q := Int.floor_le q
  have h1 : q < (⌊q⌋ : ℚ) + 1 := Int.lt_floor_add_one q
  unfold pyRound
  split
  · rename_i hr
    rw [abs_le]
    constructor <;> push_cast <;> linarith
  · rename_i hr1
    split
    · rename_i hr2
      rw [abs_le]
      constructor <;> push_cast <;> linarith
    · rename_i hr2
      split <;> (rw [abs_le]; constructor <;> push_cast <;> linarith)

theorem snap_abs_sub_le (x : ℚ) {g : ℚ} (hg : 0 < g) : |snap_to_grid x g - x| ≤ g / 2 := by
  unfold snap_to_grid
  have h := pyRound_abs_sub_le (x / g)
  have hsplit : (pyRound (x / g) : ℚ) * g - x = ((pyRound (x / g) : ℚ) - x / g) * g := by
    field_simp
  rw [hsplit, abs_mul, abs_of_pos hg]
  calc |(pyRound (x / g) : ℚ) - x / g| * g ≤ 1 / 2 * g :=
        mul_le_mul_of_nonneg_right h hg.le
    _ = g / 2 := by ring

theorem round_coordinate_abs_sub_le (x : ℚ) (d : ℕ) :
    |round_coordinate x d - x| ≤ 1 / (2 * 10 ^ d) := by
  have hm : (0 : ℚ) < 10 ^ d := by positivity
  unfold round_coordinate
  split
  · rename_i hx
    have h1 : (⌊x * 10 ^ d + 1/2⌋ : ℚ) ≤ x * 10 ^ d + 1/2 := Int.floor_le _
    have h2 : x * 10 ^ d + 1/2 < (⌊x * 10 ^ d + 1/2⌋ : ℚ) + 1 := Int.lt_floor_add_one _
    have hsplit : (⌊x * 10 ^ d + 1/2⌋ : ℚ) / 10 ^ d - x =
        ((⌊x * 10 ^ d + 1/2⌋ : ℚ) - x * 10 ^ d) / 10 ^ d := by field_simp; ring
    rw [hsplit, abs_div, abs_of_pos hm,
        show (1 : ℚ) / (2 * 10 ^ d) = (1 / 2) / 10 ^ d by ring,
        div_le_div_iff_of_pos_right hm, abs_le]
    constructor <;> linarith
  · rename_i hx
    have h1 : (⌊-x * 10 ^ d + 1/2⌋ : ℚ) ≤ -x * 10 ^ d + 1/2 := Int.floor_le _
    have h2 : -x * 10 ^ d + 1/2 < (⌊-x * 10 ^ d + 1/2⌋ : ℚ) + 1 := Int.lt_floor_add_one _
    have hsplit : -((⌊-x * 10 ^ d + 1/2⌋ : ℚ) / 10 ^ d) - x =
        -(((⌊-x * 10 ^ d + 1/2⌋ : ℚ) - (-x) * 10 ^ d) / 10 ^ d) := by field_simp; ring
    rw [hsplit, abs_neg, abs_div, abs_of_pos hm,
        show (1 : ℚ) / (2 * 10 ^ d) = (1 / 2) / 10 ^ d by ring,
        div_le_div_iff_of_pos_right hm, abs_le]
    constructor <;> linarith

theorem out_coord_bound (x : ℚ) {g : ℚ} (d : ℕ) (hg : 0 < g) :
    |round_coordinate (snap_to_grid x g) d - x| ≤ g / 2 + 1 / (2 * 10 ^ d) := by
  have h1 := round_coordinate_abs_sub_le (snap_to_grid x g) d
  have h2 := snap_abs_sub_le x hg
  calc |round_coordinate (snap_to_grid x g) d - x|
      = |(round_coordinate (snap_to_grid x g) d - snap_to_grid x g) + (snap_to_grid x g - x)| := by
        ring_nf
    _ ≤ |round_coordinate (snap_to_grid x g) d - snap_to_grid x g| + |snap_to_grid x g - x| :=
        abs_add _ _
    _ ≤ g / 2 + 1 / (2 * 10 ^ d) := by linarith

/-- Anatomy of a successful per-face computation: the plane frame produced by
lines 367-377 is exactly orthonormal, and the three stages of each point are
the construction of lines 379-435. -/
theorem computeFaceCalc_anatomy {cfg : Config} {pl : SimplePlane} {fc : FaceCalc}
    (h : computeFaceCalc cfg pl = some fc) :
    ∃ N t1 t2 : Vec3,
      normalize_vector pl.normal = some N ∧
      Vec3.norm2 N = 1 ∧ Vec3.norm2 t1 = 1 ∧ Vec3.norm2 t2 = 1 ∧
      Vec3.dot N t1 = 0 ∧ Vec3.dot t1 t2 = 0 ∧ Vec3.dot N t2 = 0 ∧
      fc.pre1 = Vec3.add (snapVec cfg.grid_snap (Vec3.smul pl.distance N)) (Vec3.smul 256 t1) ∧
      fc.pre2 = Vec3.sub (snapVec cfg.grid_snap (Vec3.smul pl.distance N)) (Vec3.smul 256 t1) ∧
      fc.pre3 = Vec3.add (snapVec cfg.grid_snap (Vec3.smul pl.distance N)) (Vec3.smul 256 t2) ∧
      fc.out1 = roundVec (snapVec cfg.grid_snap fc.pre1) cfg.coordinate_decimals ∧
      fc.out2 = roundVec (snapVec cfg.grid_snap fc.pre2) cfg.coordinate_decimals ∧
      fc.out3 = roundVec (snapVec cfg.grid_snap fc.pre3) cfg.coordinate_decimals := by
  unfold computeFaceCalc at h
  split at h
  · exact Option.noConfusion h
  · rename_i N hN
    split at h
    · exact Option.noConfusion h
    · rename_i t1 ht1
      split at h
      · exact Option.noConfusion h
      · rename_i t2 ht2
        injection h with h
        subst h
        have hN2 : Vec3.norm2 N = 1 := normalize_norm2 hN
        have hT1 : Vec3.norm2 t1 = 1 := normalize_norm2 ht1
        have hT2 : Vec3.norm2 t2 = 1 := normalize_norm2 ht2
        have hc1 : Vec3.norm2 N = N.x ^ 2 + N.y ^ 2 + N.z ^ 2 := rfl
        have hNT1 : Vec3.dot N t1 = 0 := by
          by_cases hz : |N.z| < 9/10
          · rw [if_pos hz] at ht1
            rcases normalize_cases ht1 with ⟨c, hc⟩ | ⟨hfb, hsmall⟩
            · rw [hc, Vec3.dot_smul_right, Vec3.dot_cross_left, mul_zero]
            · exfalso
              have hcr : Vec3.norm2 (cross_product N ⟨0, 0, 1⟩) = N.x ^ 2 + N.y ^ 2 := by
                simp only [cross_product, Vec3.norm2]
                ring
              rw [hcr] at hsmall
              rw [hc1] at hN2
              nlinarith [sq_abs N.z, abs_nonneg N.z]
          · rw [if_neg hz] at ht1
            rcases normalize_cases ht1 with ⟨c, hc⟩ | ⟨hfb, hsmall⟩
            · rw [hc, Vec3.dot_smul_right, Vec3.dot_cross_left, mul_zero]
            · exfalso
              have hcr : Vec3.norm2 (cross_product N ⟨1, 0, 0⟩) = N.z ^ 2 + N.y ^ 2 := by
                simp only [cross_product, Vec3.norm2]
                ring
              rw [hcr] at hsmall
              push_neg at hz
              nlinarith [sq_abs N.z, abs_nonneg N.z]
        have hT1T2 : Vec3.dot t1 t2 = 0 ∧ Vec3.dot N t2 = 0 := by
          rcases normalize_cases ht2 with ⟨c, hc⟩ | ⟨hfb, hsmall⟩
          · constructor
            · rw [hc, Vec3.dot_smul_right, Vec3.dot_cross_right, mul_zero]
            · rw [hc, Vec3.dot_smul_right, Vec3.dot_cross_left, mul_zero]
          · exfalso
            have hlag := Vec3.norm2_cross N t1
            rw [hN2, hT1, hNT1] at hlag
            rw [hlag] at hsmall
            norm_num at hsmall
        exact ⟨N, t1, t2, hN, hN2, hT1, hT2, hNT1, hT1T2.1, hT1T2.2,
               rfl, rfl, rfl, rfl, rfl, rfl⟩

/-- Absolute plane-equation residual `|dot(normal, p) - distance|` of a point
against a parsed plane record. -/
def planeErr (pl : SimplePlane) (p : Vec3) : ℚ :=
  |Vec3.dot pl.normal p - pl.distance|

theorem dot_self_eq_norm2 (a : Vec3) : Vec3.dot a a = Vec3.norm2 a := by
  simp only [Vec3.dot, Vec3.norm2]
  ring

theorem dot_snap_center {N : Vec3} (hN2 : Vec3.norm2 N = 1) (D : ℚ) {g : ℚ} (hg : 0 < g) :
    |Vec3.dot N (snapVec g (Vec3.smul D N)) - D| ≤ 3 * (g / 2) := by
  have hC : Vec3.dot N (Vec3.smul D N) = D := by
    rw [Vec3.dot_smul_right, dot_self_eq_norm2, hN2, mul_one]
  have hsplit : Vec3.dot N (snapVec g (Vec3.smul D N)) - D =
      Vec3.dot N (Vec3.sub (snapVec g (Vec3.smul D N)) (Vec3.smul D N)) := by
    rw [Vec3.dot_sub_right, hC]
  rw [hsplit]
  refine (Vec3.abs_dot_le _ hN2).trans ?_
  have e1 := snap_abs_sub_le (Vec3.smul D N).x hg
  have e2 := snap_abs_sub_le (Vec3.smul D N).y hg
  have e3 := snap_abs_sub_le (Vec3.smul D N).z hg
  simp only [Vec3.sub, snapVec]
  linarith

theorem dot_out_err {N : Vec3} (hN2 : Vec3.norm2 N = 1) (p : Vec3) {g : ℚ} (d : ℕ)
    (hg : 0 < g) :
    |Vec3.dot N (Vec3.sub (roundVec (snapVec g p) d) p)| ≤ 3 * (g / 2 + 1 / (2 * 10 ^ d)) := by
  refine (Vec3.abs_dot_le _ hN2).trans ?_
  have e1 := out_coord_bound p.x d hg
  have e2 := out_coord_bound p.y d hg
  have e3 := out_coord_bound p.z d hg
  simp only [Vec3.sub, roundVec, snapVec]
  linarith

theorem point_residuals {N : Vec3} (hN2 : Vec3.norm2 N = 1) (D : ℚ) {g : ℚ} (d : ℕ)
    (hg : 0 < g) (p q : Vec3)
    (hp : Vec3.dot N p = Vec3.dot N (snapVec g (Vec3.smul D N)))
    (hq : q = roundVec (snapVec g p) d) :
    |Vec3.dot N p - D| ≤ 3 * (g / 2) ∧
    |Vec3.dot N q - D| ≤ 3 * (g + 1 / (2 * 10 ^ d)) := by
  have hcen := dot_snap_center hN2 D hg
  have h1 : |Vec3.dot N p - D| ≤ 3 * (g / 2) := by rw [hp]; exact hcen
  refine ⟨h1, ?_⟩
  have hsplit : Vec3.dot N q - D = (Vec3.dot N p - D) + Vec3.dot N (Vec3.sub q p) := by
    rw [Vec3.dot_sub_right]
    ring
  have h2 : |Vec3.dot N (Vec3.sub q p)| ≤ 3 * (g / 2 + 1 / (2 * 10 ^ d)) := by
    rw [hq]
    exact dot_out_err hN2 p d hg
  calc |Vec3.dot N q - D| ≤ |Vec3.dot N p - D| + |Vec3.dot N (Vec3.sub q p)| := by
        rw [hsplit]
        exact abs_add _ _
    _ ≤ 3 * (g / 2) + 3 * (g / 2 + 1 / (2 * 10 ^ d)) := by linarith
    _ = 3 * (g + 1 / (2 * 10 ^ d)) := by ring

/-- C1 (amended): for every valid (unit-normal) plane record, the three points
constructed by the geometry reconstructor satisfy the plane equation to within
`3·(grid_snap/2)` as created (the center is already grid-snapped at creation),
and to within `3·(grid_snap + 10^-decimals/2)` after per-point grid snapping
and decimal rounding.  The claimed fixed tolerance 1e-3 does not hold at
either stage (the snap displacement dominates it); see the counterexample. -/
theorem C1_amended_incidence (cfg : Config) (pl : SimplePlane) (fc : FaceCalc)
    (h : computeFaceCalc cfg pl = some fc)
    (hunit : Vec3.norm2 pl.normal = 1)
    (hg : 0 < cfg.grid_snap) :
    (planeErr pl fc.pre1 ≤ 3 * (cfg.grid_snap / 2) ∧
     planeErr pl fc.pre2 ≤ 3 * (cfg.grid_snap / 2) ∧
     planeErr pl fc.pre3 ≤ 3 * (cfg.grid_snap / 2)) ∧
    (planeErr pl fc.out1 ≤ 3 * (cfg.grid_snap + 1 / (2 * 10 ^ cfg.coordinate_decimals)) ∧
     planeErr pl fc.out2 ≤ 3 * (cfg.grid_snap + 1 / (2 * 10 ^ cfg.coordinate_decimals)) ∧
     planeErr pl fc.out3 ≤ 3 * (cfg.grid_snap + 1 / (2 * 10 ^ cfg.coordinate_decimals))) := by
  obtain ⟨N, t1, t2, hN, hN2, hT1, hT2, hd1, hd12, hd2, hp1, hp2, hp3, ho1, ho2, ho3⟩ :=
    computeFaceCalc_anatomy h
  have hNeq : N = pl.normal := by
    rw [normalize_of_norm2_one hunit] at hN
    exact (Option.some_inj.mp hN).symm
  have hPE : ∀ p : Vec3, planeErr pl p = |Vec3.dot N p - pl.distance| := by
    intro p
    rw [planeErr, hNeq]
  have epre1 : Vec3.dot N fc.pre1 =
      Vec3.dot N (snapVec cfg.grid_snap (Vec3.smul pl.distance N)) := by
    rw [hp1, Vec3.dot_add_right, Vec3.dot_smul_right, hd1]
    ring
  have epre2 : Vec3.dot N fc.pre2 =
      Vec3.dot N (snapVec cfg.grid_snap (Vec3.smul pl.distance N)) := by
    rw [hp2, Vec3.dot_sub_right, Vec3.dot_smul_right, hd1]
    ring
  have epre3 : Vec3.dot N fc.pre3 =
      Vec3.dot N (snapVec cfg.grid_snap (Vec3.smul pl.distance N)) := by
    rw [hp3, Vec3.dot_add_right, Vec3.dot_smul_right, hd2]
    ring
  have P1 := point_residuals hN2 pl.distance cfg.coordinate_decimals hg fc.pre1 fc.out1 epre1 ho1
  have P2 := point_residuals hN2 pl.distance cfg.coordinate_decimals hg fc.pre2 fc.out2 epre2 ho2
  have P3 := point_residuals hN2 pl.distance cfg.coordinate_decimals hg fc.pre3 fc.out3 epre3 ho3
  rw [hPE, hPE, hPE, hPE, hPE, hPE]
  exact ⟨⟨P1.1, P2.1, P3.1⟩, P1.2, P2.2, P3.2⟩

/-! ### List helpers -/

theorem length_filterMap_of_isSome {α β : Type} (f : α → Option β) (l : List α)
    (h : ∀ a ∈ l, (f a).isSome) : (l.filterMap f).length = l.length := by
  induction l with
  | nil => rfl
  | cons a t ih =>
    rw [List.filterMap_cons]
    cases hfa : f a with
    | none =>
      have := h a (List.mem_cons_self a t)
      rw [hfa] at this
      simp at this
    | some b =>
      simp only [List.length_cons]
      rw [ih fun x hx => h x (List.mem_cons_of_mem a hx)]

theorem length_filterMap_eq_filter {α β : Type} (f : α → Option β) (g : α → Bool) (l : List α)
    (h : ∀ a ∈ l, (f a).isSome = g a) : (l.filterMap f).length = (l.filter g).length := by
  induction l with
  | nil => rfl
  | cons a t ih =>
    rw [List.filterMap_cons, List.filter_cons]
    have ha := h a (List.mem_cons_self a t)
    have iht := ih fun x hx => h x (List.mem_cons_of_mem a hx)
    cases hfa : f a with
    | none =>
      rw [hfa] at ha
      simp only [Option.isSome_none] at ha
      rw [if_neg (by rw [← ha]; simp)]
      exact iht
    | some b =>
      rw [hfa] at ha
      simp only [Option.isSome_some] at ha
      rw [if_pos (by rw [← ha])]
      simp only [List.length_cons]
      rw [iht]

theorem dropWhile_head_not {α : Type} {p : α → Bool} {l : List α} {a : α} {t : List α}
    (h : l.dropWhile p = a :: t) : p a = false := by
  induction l with
  | nil => simp at h
  | cons b l ih =>
    rw [List.dropWhile_cons] at h
    split at h
    · exact ih h
    · rename_i hb
      injection h with h1 _
      subst h1
      exact Bool.of_not_eq_true hb

theorem dropWhile_idem {α : Type} (p : α → Bool) (l : List α) :
    (l.dropWhile p).dropWhile p = l.dropWhile p := by
  cases h : l.dropWhile p with
  | nil => rfl
  | cons a t =>
    rw [List.dropWhile_cons, if_neg]
    rw [dropWhile_head_not h]
    simp

theorem pyStrip_idem (l : List Char) : pyStrip (pyStrip l) = pyStrip l := by
  unfold pyStrip
  have hyrev :
      ((((l.dropWhile pyWhitespace).reverse.dropWhile pyWhitespace).reverse).reverse).dropWhile
          pyWhitespace =
        (l.dropWhile pyWhitespace).reverse.dropWhile pyWhitespace := by
    rw [List.reverse_reverse]
    exact dropWhile_idem _ _
  have hyfront :
      (((l.dropWhile pyWhitespace).reverse.dropWhile pyWhitespace).reverse).dropWhile
          pyWhitespace =
        ((l.dropWhile pyWhitespace).reverse.dropWhile pyWhitespace).reverse := by
    cases hy : ((l.dropWhile pyWhitespace).reverse.dropWhile pyWhitespace).reverse with
    | nil => rfl
    | cons a t =>
      have hsuf : List.dropWhile pyWhitespace (l.dropWhile pyWhitespace).reverse <:+
          (l.dropWhile pyWhitespace).reverse := List.dropWhile_suffix pyWhitespace
      have hpre : (a :: t) <+: l.dropWhile pyWhitespace := by
        rw [← hy]
        have h2 := List.reverse_prefix.mpr hsuf
        rwa [List.reverse_reverse] at h2
      obtain ⟨r, hr⟩ := hpre
      have hfl : l.dropWhile pyWhitespace = a :: (t ++ r) := by
        rw [← hr]
        rfl
      have hhead : pyWhitespace a = false := dropWhile_head_not hfl
      rw [List.dropWhile_cons, if_neg (by rw [hhead]; simp)]
  rw [hyfront, hyrev]

theorem mem_pyStrip {a : Char} {l : List Char} (h : a ∈ pyStrip l) : a ∈ l := by
  unfold pyStrip at h
  rw [List.mem_reverse] at h
  have hsuf1 : List.dropWhile pyWhitespace (l.dropWhile pyWhitespace).reverse <:+
      (l.dropWhile pyWhitespace).reverse := List.dropWhile_suffix pyWhitespace
  have h1 : a ∈ (l.dropWhile pyWhitespace).reverse := hsuf1.subset h
  rw [List.mem_reverse] at h1
  have hsuf2 : List.dropWhile pyWhitespace l <:+ l := List.dropWhile_suffix pyWhitespace
  exact hsuf2.subset h1

theorem removeNul_pyStrip (s : List Char) :
    removeNul (pyStrip (removeNul s)) = pyStrip (removeNul s) := by
  unfold removeNul
  apply List.filter_eq_self.mpr
  intro a ha
  have h1 : a ∈ removeNul s := mem_pyStrip ha
  unfold removeNul at h1
  exact (List.mem_filter.mp h1).2

/-! ### Claim theorems -/

/-- C3 counterexample: a brush whose content flags include the area-portal bit
but whose side count is below 4 is counted in the *skipped* statistic, not in
the area-portal statistic, so the claim's second half is false as stated. -/
theorem C3_counterexample :
    (⟨0, 3, 0x8000⟩ : SimpleBrush).contents &&& CONTENTS_AREAPORTAL ≠ 0 ∧
    processBrush defaultConfig [] [] [] ⟨0, 3, 0x8000⟩ = some BrushOutcome.skippedCount ∧
    BrushOutcome.skippedCount ≠ BrushOutcome.areaportalCount := by
  refine ⟨by decide, by decide, by decide⟩

/-- C3 (amended): a brush with fewer than 4 sides or zero content flags is
counted as skipped; a brush with the area-portal bit set is never emitted in
the worldspawn block, and it is counted in the area-portal statistic exactly
when it also has at least 4 sides (the side-count check runs first). -/
theorem C3_amended_filter (cfg : Config) (P : List SimplePlane) (S : List SimpleBrushSide)
    (T : List SimpleTexInfo) (b : SimpleBrush) :
    ((b.num_sides < 4 ∨ b.contents = 0) →
        processBrush cfg P S T b = some BrushOutcome.skippedCount) ∧
    (b.contents &&& CONTENTS_AREAPORTAL ≠ 0 →
        (∀ faces, processBrush cfg P S T b ≠ some (BrushOutcome.emitted faces)) ∧
        (4 ≤ b.num_sides → processBrush cfg P S T b = some BrushOutcome.areaportalCount)) := by
  constructor
  · rintro (h4 | h0)
    · simp only [processBrush]
      rw [if_pos h4]
    · simp only [processBrush]
      by_cases h4 : b.num_sides < 4
      · rw [if_pos h4]
      · rw [if_neg h4, if_pos h0]
  · intro hap
    have hc0 : b.contents ≠ 0 := by
      intro h
      rw [h] at hap
      simp at hap
    constructor
    · intro faces
      simp only [processBrush]
      by_cases h4 : b.num_sides < 4
      · rw [if_pos h4]
        simp
      · rw [if_neg h4, if_neg hc0, if_pos hap]
        simp
    · intro h4
      simp only [processBrush]
      rw [if_neg (by omega), if_neg hc0, if_pos hap]

/-- C4 counterexample: an all-NUL texture name resolves to the empty string,
not to any default name (in particular not to "MISSING"), and a plain keyword
name such as "metal1_2" is returned unchanged — no directory prefix is ever
prepended by the texture fixup in this code. -/
theorem C4_counterexample :
    fix_texture_name "\x00".toList = [] ∧
    fix_texture_name "\x00".toList ≠ "MISSING".toList ∧
    fix_texture_name "metal1_2".toList = "metal1_2".toList ∧
    ('/' : Char) ∉ fix_texture_name "metal1_2".toList := by
  refine ⟨by decide, by decide, by decide, by decide⟩

theorem reservedNames_head {n : List Char} (h : pyUpper n ∈ reservedNames) :
    n.head? ≠ some '*' := by
  intro hstar
  have hh : (pyUpper n).head? = some '*' := by
    rw [pyUpper, List.head?_map, hstar]
    rfl
  simp only [reservedNames, List.mem_cons, List.not_mem_nil, or_false] at h
  rcases h with h | h | h | h | h <;> rw [h] at hh <;> revert hh <;> decide

/-- C4 (amended): the empty name resolves to the literal "MISSING" (there is
no configurable default in this code); a stripped name beginning with '*'
passes through; a reserved token is uppercased; "*04water1" is unchanged; and
"metal1_2" is returned as-is — the claimed keyword-table path prefixing does
not exist in this implementation. -/
theorem C4_amended_texture_names :
    fix_texture_name [] = "MISSING".toList ∧
    (∀ s : List Char, s ≠ [] → (pyStrip (removeNul s)).head? = some '*' →
        fix_texture_name s = pyStrip (removeNul s)) ∧
    (∀ s : List Char, s ≠ [] → pyUpper (pyStrip (removeNul s)) ∈ reservedNames →
        fix_texture_name s = pyUpper (pyStrip (removeNul s))) ∧
    fix_texture_name "*04water1".toList = "*04water1".toList ∧
    fix_texture_name "metal1_2".toList = "metal1_2".toList := by
  refine ⟨by decide, ?_, ?_, by decide, by decide⟩
  · intro s hs hstar
    simp only [fix_texture_name, if_neg hs, if_pos hstar]
  · intro s hs hres
    simp only [fix_texture_name, if_neg hs, if_neg (reservedNames_head hres), if_pos hres]

/-- C10 counterexample: the texture-name fixup is not idempotent — an all-NUL
name maps to the empty string, which then maps to "MISSING". -/
theorem C10_counterexample :
    fix_texture_name (fix_texture_name "\x00".toList) ≠ fix_texture_name "\x00".toList := by
  decide

/-- C10 (amended): the texture-name fixup is idempotent on every input whose
image is nonempty; the only failures of idempotence are the inputs (all-NUL or
all-whitespace nonempty names) that map to the empty string. -/
theorem C10_amended_idempotent (s : List Char) (h : fix_texture_name s ≠ []) :
    fix_texture_name (fix_texture_name s) = fix_texture_name s := by
  by_cases hs : s = []
  · subst hs
    decide
  · have hname : removeNul (pyStrip (removeNul s)) = pyStrip (removeNul s) := removeNul_pyStrip s
    have hstrip : pyStrip (pyStrip (removeNul s)) = pyStrip (removeNul s) := pyStrip_idem _
    by_cases hstar : (pyStrip (removeNul s)).head? = some '*'
    · have hfix : fix_texture_name s = pyStrip (removeNul s) := by
        simp only [fix_texture_name, if_neg hs, if_pos hstar]
      have hn : pyStrip (removeNul s) ≠ [] := by
        intro h0
        rw [h0] at hstar
        exact Option.noConfusion hstar
      rw [hfix]
      simp only [fix_texture_name, if_neg hn, hname, hstrip, if_pos hstar]
    · by_cases hres : pyUpper (pyStrip (removeNul s)) ∈ reservedNames
      · have hfix : fix_texture_name s = pyUpper (pyStrip (removeNul s)) := by
          simp only [fix_texture_name, if_neg hs, if_neg hstar, if_pos hres]
        rw [hfix]
        have hres' := hres
        simp only [reservedNames, List.mem_cons, List.not_mem_nil, or_false] at hres'
        rcases hres' with h1 | h1 | h1 | h1 | h1 <;> rw [h1] <;> decide
      · have hfix : fix_texture_name s = pyStrip (removeNul s) := by
          simp only [fix_texture_name, if_neg hs, if_neg hstar, if_neg hres]
        rw [hfix] at h ⊢
        simp only [fix_texture_name, if_neg h, hname, hstrip, if_neg hstar, if_neg hres]

/-- C10 witness: idempotence at the concrete name "metal1_2". -/
theorem C10_amended_idempotent_witness :
    fix_texture_name (fix_texture_name "metal1_2".toList) =
      fix_texture_name "metal1_2".toList :=
  C10_amended_idempotent _ (by decide)

/-- C7: `round_coordinate` rounds half up with ties away from zero: every
exact tie `(2k+1)/(2·10^d)` rounds to the neighbour of larger magnitude, and
2.005 at two decimals yields 2.01, not 2.00 (no banker's rounding). -/
theorem C7_round_half_up :
    (∀ (k : ℤ) (d : ℕ),
      round_coordinate ((2 * (k : ℚ) + 1) / (2 * 10 ^ d)) d =
        (if 0 ≤ k then (k : ℚ) + 1 else (k : ℚ)) / 10 ^ d) ∧
    round_coordinate (2005/1000) 2 = 201/100 ∧
    round_coordinate (2005/1000) 2 ≠ 2 := by
  refine ⟨?_, by norm_num [round_coordinate], by norm_num [round_coordinate]⟩
  intro k d
  have hm : (0 : ℚ) < 10 ^ d := by positivity
  by_cases hk : 0 ≤ k
  · have hkq : (0 : ℚ) ≤ (k : ℚ) := by exact_mod_cast hk
    have hv : (0 : ℚ) ≤ (2 * (k : ℚ) + 1) / (2 * 10 ^ d) := by positivity
    rw [if_pos hk]
    unfold round_coordinate
    rw [if_pos hv]
    have harg : (2 * (k : ℚ) + 1) / (2 * 10 ^ d) * 10 ^ d + 1/2 = ((k + 1 : ℤ) : ℚ) := by
      push_cast
      field_simp
      ring
    rw [harg, Int.floor_intCast]
    push_cast
    ring
  · have hk1 : k ≤ -1 := by omega
    have hkq : (k : ℚ) ≤ -1 := by exact_mod_cast hk1
    have hv : ¬ (0 : ℚ) ≤ (2 * (k : ℚ) + 1) / (2 * 10 ^ d) := by
      rw [not_le]
      apply div_neg_of_neg_of_pos
      · linarith
      · positivity
    rw [if_neg hk]
    unfold round_coordinate
    rw [if_neg hv]
    have harg : -((2 * (k : ℚ) + 1) / (2 * 10 ^ d)) * 10 ^ d + 1/2 = ((-k : ℤ) : ℚ) := by
      push_cast
      field_simp
      ring
    rw [harg, Int.floor_intCast]
    push_cast
    ring

/-- C5 counterexample: a brush side whose plane index is out of range is
silently dropped from the resolved side list — the brush has 4 sides but only
3 resolve, so the side is lost rather than replaced by a default. -/
theorem C5_counterexample :
    (⟨0, 4, 1⟩ : SimpleBrush).num_sides = 4 ∧
    (resolveSides [⟨⟨1, 0, 0⟩, 16, 0⟩, ⟨⟨0, 1, 0⟩, 16, 0⟩, ⟨⟨0, 0, 1⟩, 16, 0⟩]
        [⟨0, 0⟩, ⟨1, 0⟩, ⟨2, 0⟩, ⟨7, 0⟩] [] ⟨0, 4, 1⟩).length = 3 := by
  refine ⟨rfl, by decide⟩

/-- C5 (amended): a side whose texture-info index is out of range is kept,
paired with the neutral `none` reference (emitted later as the fixed default
directive); but a side whose plane index is out of range is dropped entirely —
the resolved list's length counts exactly the sides with in-range side and
plane indices.  No out-of-range index crashes the conversion. -/
theorem C5_amended_side_resolution (P : List SimplePlane) (S : List SimpleBrushSide)
    (T : List SimpleTexInfo) (b : SimpleBrush) :
    (∀ i side, i < b.num_sides → S[b.first_side + i]? = some side →
        ∀ h : side.plane_num < P.length,
        (P[side.plane_num], T[side.tex_info]?) ∈ resolveSides P S T b) ∧
    ((resolveSides P S T b).length =
      ((List.range b.num_sides).filter fun i =>
        match S[b.first_side + i]? with
        | some side => decide (side.plane_num < P.length)
        | none => false).length) ∧
    (∀ fc : FaceCalc, (mkFace fc none).tex = FaceTex.missingDefault) := by
  refine ⟨?_, ?_, fun _ => rfl⟩
  · intro i side hi hS h
    apply List.mem_filterMap.mpr
    refine ⟨i, List.mem_range.mpr hi, ?_⟩
    rw [hS]
    simp [List.getElem?_eq_getElem h]
  · apply length_filterMap_eq_filter
    intro a _
    cases hS : S[b.first_side + a]? with
    | none => simp
    | some side =>
      cases hP : P[side.plane_num]? with
      | none =>
        have hlt : ¬ side.plane_num < P.length := by
          intro hlt
          rw [List.getElem?_eq_getElem hlt] at hP
          exact Option.noConfusion hP
        simp [hP, hlt]
      | some pl =>
        have hlt : side.plane_num < P.length := by
          by_contra hlt
          rw [List.getElem?_eq_none (le_of_not_lt hlt)] at hP
          exact Option.noConfusion hP
        simp [hP, hlt]

/-- C6 counterexample: a directory entry whose length runs past the end of the
buffer is clamped, but the lump does not yield zero records: a 48-byte buffer
sliced at offset 8 with claimed length 1000 still parses two 20-byte records. -/
theorem C6_counterexample :
    (List.range 48).length < 8 + 1000 ∧
    (parseRecords (lumpSlice (List.range 48) 8 1000) 20).length = 2 ∧
    (parseRecords (lumpSlice (List.range 48) 8 1000) 20).length ≠ 0 := by
  refine ⟨by decide, by decide, by decide⟩

/-- C6 (amended): slicing clamps to the buffer without any failure, and the
lump yields `⌊clamped-length / record-size⌋` records — zero exactly when the
clamped slice is shorter than one record (in particular whenever the offset is
at or past the end of the buffer); parsing is total, so the remaining lumps
always convert. -/
theorem C6_amended_clamped_slice (data : List ℕ) (off len size : ℕ) (hsize : 0 < size) :
    (lumpSlice data off len).length = min len (data.length - off) ∧
    (parseRecords (lumpSlice data off len) size).length = min len (data.length - off) / size ∧
    (data.length ≤ off → parseRecords (lumpSlice data off len) size = []) := by
  have hlen : (lumpSlice data off len).length = min len (data.length - off) := by
    simp [lumpSlice]
  have hcount : ∀ bytes : List ℕ, (parseRecords bytes size).length = bytes.length / size := by
    intro bytes
    unfold parseRecords
    rw [length_filterMap_of_isSome]
    · exact List.length_range _
    · intro i hi
      rw [List.mem_range] at hi
      have hle : i * size + size ≤ bytes.length := by
        calc i * size + size = (i + 1) * size := by ring
          _ ≤ bytes.length / size * size := Nat.mul_le_mul_right size hi
          _ ≤ bytes.length := Nat.div_mul_le_self _ _
      simp [hle]
  refine ⟨hlen, by rw [hcount, hlen], ?_⟩
  intro hoff
  unfold parseRecords lumpSlice
  rw [List.drop_eq_nil_of_le hoff]
  simp

/-- C6 witness: the clamping formula at the concrete 48-byte buffer. -/
theorem C6_amended_clamped_slice_witness :
    (lumpSlice (List.range 48) 8 1000).length = min 1000 ((List.range 48).length - 8) ∧
    (parseRecords (lumpSlice (List.range 48) 8 1000) 20).length =
      min 1000 ((List.range 48).length - 8) / 20 ∧
    ((List.range 48).length ≤ 8 → parseRecords (lumpSlice (List.range 48) 8 1000) 20 = []) :=
  C6_amended_clamped_slice (List.range 48) 8 1000 20 (by decide)

/-- C9: a brush that passes the content and side-count filters but resolves
fewer than 4 in-range sides is silently dropped: it is not emitted and no
statistic (valid, skipped or area-portal) changes, so the reported counts need
not sum to the number of parsed brushes. -/
theorem C9_dropped_brush (cfg : Config) (P : List SimplePlane) (S : List SimpleBrushSide)
    (T : List SimpleTexInfo) (bs : List SimpleBrush) (b : SimpleBrush)
    (h4 : 4 ≤ b.num_sides) (hc : b.contents ≠ 0)
    (hap : b.contents &&& CONTENTS_AREAPORTAL = 0)
    (hres : (resolveSides P S T b).length < 4) :
    convertBrushes cfg P S T (bs ++ [b]) = convertBrushes cfg P S T bs := by
  have hb : processBrush cfg P S T b = some BrushOutcome.dropped := by
    simp only [processBrush]
    rw [if_neg (by omega), if_neg hc, if_neg (by simp [hap]), if_neg (by omega)]
  induction bs with
  | nil =>
    rw [List.nil_append]
    unfold convertBrushes
    rw [hb]
    rfl
  | cons a bs ih =>
    rw [List.cons_append]
    unfold convertBrushes
    rw [ih]

/-- C9 witness: a 4-sided solid brush over empty arrays resolves no sides and
leaves the conversion state untouched. -/
theorem C9_dropped_brush_witness :
    convertBrushes defaultConfig [] [] [] ([] ++ [⟨0, 4, 1⟩]) =
      convertBrushes defaultConfig [] [] [] [] :=
  C9_dropped_brush defaultConfig [] [] [] [] ⟨0, 4, 1⟩ (by decide) (by decide) (by decide)
    (by decide)

/-- C1 counterexample: for the valid unit-normal plane (3/5, 4/5, 0) with
distance 1, the emitted point p1 misses the plane equation by 1/10 as created
(the construction center is grid-snapped) and by 1/20 after snapping and
rounding — both far beyond the claimed 1e-3 tolerance. -/
theorem C1_counterexample :
    Vec3.norm2 (⟨3/5, 4/5, 0⟩ : Vec3) = 1 ∧
    ∃ fc : FaceCalc,
      computeFaceCalc defaultConfig ⟨⟨3/5, 4/5, 0⟩, 1, 0⟩ = some fc ∧
      1/1000 < planeErr ⟨⟨3/5, 4/5, 0⟩, 1, 0⟩ fc.pre1 ∧
      1/1000 < planeErr ⟨⟨3/5, 4/5, 0⟩, 1, 0⟩ fc.out1 := by
  refine ⟨by norm_num [Vec3.norm2],
    ⟨⟨2053/10, -(3057/20), 0⟩, ⟨-(2043/10), 3087/20, 0⟩, ⟨1/2, 3/4, -256⟩,
     ⟨821/4, -(611/4), 0⟩, ⟨-(817/4), 617/4, 0⟩, ⟨1/2, 3/4, -256⟩, true,
     ⟨821/4, -(611/4), 0⟩, ⟨-(817/4), 617/4, 0⟩, ⟨1/2, 3/4, -256⟩⟩, ?_, ?_, ?_⟩
  · have h1 : normalize_vector ⟨3/5, 4/5, 0⟩ = some ⟨3/5, 4/5, 0⟩ :=
      normalize_of_norm2_one (by norm_num [Vec3.norm2])
    have h2 : normalize_vector (cross_product ⟨3/5, 4/5, 0⟩ ⟨0, 0, 1⟩) =
        some ⟨4/5, -(3/5), 0⟩ := by
      have e : cross_product (⟨3/5, 4/5, 0⟩ : Vec3) ⟨0, 0, 1⟩ = ⟨4/5, -(3/5), 0⟩ := by
        simp [cross_product] <;> norm_num
      rw [e]
      exact normalize_of_norm2_one (by norm_num [Vec3.norm2])
    have h3 : normalize_vector (cross_product ⟨3/5, 4/5, 0⟩ ⟨4/5, -(3/5), 0⟩) =
        some ⟨0, 0, -1⟩ := by
      have e : cross_product (⟨3/5, 4/5, 0⟩ : Vec3) ⟨4/5, -(3/5), 0⟩ = ⟨0, 0, -1⟩ := by
        simp [cross_product] <;> norm_num
      rw [e]
      exact normalize_of_norm2_one (by norm_num [Vec3.norm2])
    simp only [computeFaceCalc, defaultConfig]
    norm_num
    rw [h1]
    norm_num [h2, h3, snapVec, snap_to_grid, pyRound, roundVec, round_coordinate,
      validate_brush_geometry, COMPILE_EPSILON, Vec3.add, Vec3.sub, Vec3.smul, Vec3.norm2]
  · simp only [planeErr]
    rw [lt_abs]
    right
    norm_num [Vec3.dot]
  · simp only [planeErr]
    rw [lt_abs]
    right
    norm_num [Vec3.dot]

/-- The face computation of the axis plane z = 64 under the default
configuration, used to witness the amended C1 bounds. -/
def fcZ64 : FaceCalc :=
  ⟨⟨0, 256, 64⟩, ⟨0, -256, 64⟩, ⟨-256, 0, 64⟩,
   ⟨0, 256, 64⟩, ⟨0, -256, 64⟩, ⟨-256, 0, 64⟩, true,
   ⟨0, 256, 64⟩, ⟨0, -256, 64⟩, ⟨-256, 0, 64⟩⟩

theorem computeFaceCalc_z64 :
    computeFaceCalc defaultConfig ⟨⟨0, 0, 1⟩, 64, 0⟩ = some fcZ64 := by
  have h1 : normalize_vector ⟨0, 0, 1⟩ = some ⟨0, 0, 1⟩ :=
    normalize_of_norm2_one (by norm_num [Vec3.norm2])
  have h2 : normalize_vector (cross_product ⟨0, 0, 1⟩ ⟨1, 0, 0⟩) = some ⟨0, 1, 0⟩ := by
    have e : cross_product (⟨0, 0, 1⟩ : Vec3) ⟨1, 0, 0⟩ = ⟨0, 1, 0⟩ := by
      simp [cross_product]
    rw [e]
    exact normalize_of_norm2_one (by norm_num [Vec3.norm2])
  have h3 : normalize_vector (cross_product ⟨0, 0, 1⟩ ⟨0, 1, 0⟩) = some ⟨-1, 0, 0⟩ := by
    have e : cross_product (⟨0, 0, 1⟩ : Vec3) ⟨0, 1, 0⟩ = ⟨-1, 0, 0⟩ := by
      simp [cross_product]
    rw [e]
    exact normalize_of_norm2_one (by norm_num [Vec3.norm2])
  simp only [computeFaceCalc, defaultConfig, fcZ64]
  norm_num
  rw [h1]
  norm_num [h2, h3, snapVec, snap_to_grid, pyRound, roundVec, round_coordinate,
    validate_brush_geometry, COMPILE_EPSILON, Vec3.add, Vec3.sub, Vec3.smul, Vec3.norm2]

/-- C1 witness: the amended incidence bounds at the plane z = 64. -/
theorem C1_amended_incidence_witness :
    (planeErr ⟨⟨0, 0, 1⟩, 64, 0⟩ fcZ64.pre1 ≤ 3 * (defaultConfig.grid_snap / 2) ∧
     planeErr ⟨⟨0, 0, 1⟩, 64, 0⟩ fcZ64.pre2 ≤ 3 * (defaultConfig.grid_snap / 2) ∧
     planeErr ⟨⟨0, 0, 1⟩, 64, 0⟩ fcZ64.pre3 ≤ 3 * (defaultConfig.grid_snap / 2)) ∧
    (planeErr ⟨⟨0, 0, 1⟩, 64, 0⟩ fcZ64.out1 ≤
        3 * (defaultConfig.grid_snap + 1 / (2 * 10 ^ defaultConfig.coordinate_decimals)) ∧
     planeErr ⟨⟨0, 0, 1⟩, 64, 0⟩ fcZ64.out2 ≤
        3 * (defaultConfig.grid_snap + 1 / (2 * 10 ^ defaultConfig.coordinate_decimals)) ∧
     planeErr ⟨⟨0, 0, 1⟩, 64, 0⟩ fcZ64.out3 ≤
        3 * (defaultConfig.grid_snap + 1 / (2 * 10 ^ defaultConfig.coordinate_decimals))) :=
  C1_amended_incidence defaultConfig ⟨⟨0, 0, 1⟩, 64, 0⟩ fcZ64 computeFaceCalc_z64
    (by norm_num [Vec3.norm2]) (by norm_num [defaultConfig])

theorem processFaces_mem {cfg : Config} (l : List (SimplePlane × Option SimpleTexInfo)) :
    ∀ faces, processFaces cfg l = some (some faces) → ∀ f ∈ faces,
      ∃ pl otex fc, (pl, otex) ∈ l ∧ computeFaceCalc cfg pl = some fc ∧
        f = mkFace fc otex := by
  induction l with
  | nil =>
    intro faces h f hf
    unfold processFaces at h
    injection h with h
    injection h with h
    subst h
    simp at hf
  | cons a t ih =>
    intro faces h f hf
    obtain ⟨pl, otex⟩ := a
    unfold processFaces at h
    split at h
    · exact Option.noConfusion h
    · rename_i fc hfc
      split at h
      · injection h with h
        exact Option.noConfusion h
      · split at h
        · exact Option.noConfusion h
        · injection h with h
          exact Option.noConfusion h
        · rename_i fs hrest
          injection h with h
          injection h with h
          subst h
          rcases List.mem_cons.mp hf with hf1 | hf2
          · exact ⟨pl, otex, fc, List.mem_cons_self _ _, hfc, hf1⟩
          · obtain ⟨pl', otex', fc', hmem, hfc', hf'⟩ := ih fs hrest f hf2
            exact ⟨pl', otex', fc', List.mem_cons_of_mem _ hmem, hfc', hf'⟩

theorem exists_coord_ge (v : Vec3) (b : ℚ) (hb : 0 ≤ b) (h : 3 * b ^ 2 ≤ Vec3.norm2 v) :
    b ≤ |v.x| ∨ b ≤ |v.y| ∨ b ≤ |v.z| := by
  by_contra hc
  push_neg at hc
  obtain ⟨h1, h2, h3⟩ := hc
  simp only [Vec3.norm2] at h
  nlinarith [sq_abs v.x, sq_abs v.y, sq_abs v.z, abs_nonneg v.x, abs_nonneg v.y, abs_nonneg v.z]

theorem out_coord_pair (x y : ℚ) {g : ℚ} (d : ℕ) (hg0 : 0 < g) (hg16 : g ≤ 16) :
    |x - y| - 17 ≤
      |round_coordinate (snap_to_grid x g) d - round_coordinate (snap_to_grid y g) d| := by
  have hx := out_coord_bound x d hg0
  have hy := out_coord_bound y d hg0
  have hd : 1 / (2 * (10 : ℚ) ^ d) ≤ 1/2 := by
    have h10 : (1 : ℚ) ≤ 10 ^ d := one_le_pow₀ (by norm_num)
    rw [div_le_div_iff₀ (by positivity) (by norm_num)]
    linarith
  have htri : |x - y| ≤
      |round_coordinate (snap_to_grid x g) d - round_coordinate (snap_to_grid y g) d| +
      |round_coordinate (snap_to_grid x g) d - x| +
      |round_coordinate (snap_to_grid y g) d - y| := by
    have e : x - y =
        (round_coordinate (snap_to_grid x g) d - round_coordinate (snap_to_grid y g) d) -
        (round_coordinate (snap_to_grid x g) d - x) +
        (round_coordinate (snap_to_grid y g) d - y) := by ring
    calc |x - y| ≤
        |(round_coordinate (snap_to_grid x g) d - round_coordinate (snap_to_grid y g) d) -
          (round_coordinate (snap_to_grid x g) d - x)| +
        |round_coordinate (snap_to_grid y g) d - y| := by
          rw [e]
          exact abs_add _ _
      _ ≤ _ := by
          have := abs_sub
            (round_coordinate (snap_to_grid x g) d - round_coordinate (snap_to_grid y g) d)
            (round_coordinate (snap_to_grid x g) d - x)
          linarith
  linarith

theorem norm2_ge_sq_x (v : Vec3) : v.x ^ 2 ≤ Vec3.norm2 v := by
  simp only [Vec3.norm2]
  nlinarith [sq_nonneg v.y, sq_nonneg v.z]

theorem norm2_ge_sq_y (v : Vec3) : v.y ^ 2 ≤ Vec3.norm2 v := by
  simp only [Vec3.norm2]
  nlinarith [sq_nonneg v.x, sq_nonneg v.z]

theorem norm2_ge_sq_z (v : Vec3) : v.z ^ 2 ≤ Vec3.norm2 v := by
  simp only [Vec3.norm2]
  nlinarith [sq_nonneg v.x, sq_nonneg v.y]

theorem pair_norm2_ge_one {g : ℚ} (d : ℕ) (hg0 : 0 < g) (hg16 : g ≤ 16)
    (p q op oq : Vec3)
    (hop : op = roundVec (snapVec g p) d) (hoq : oq = roundVec (snapVec g q) d)
    (h : 18 ≤ |p.x - q.x| ∨ 18 ≤ |p.y - q.y| ∨ 18 ≤ |p.z - q.z|) :
    1 ≤ Vec3.norm2 (Vec3.sub op oq) := by
  subst hop
  subst hoq
  have key : ∀ a c : ℚ, 18 ≤ |a - c| →
      1 ≤ |round_coordinate (snap_to_grid a g) d - round_coordinate (snap_to_grid c g) d| := by
    intro a c hac
    have := out_coord_pair a c d hg0 hg16
    linarith
  have sq1 : ∀ e : ℚ, 1 ≤ |e| → 1 ≤ e ^ 2 := by
    intro e he
    nlinarith [sq_abs e]
  rcases h with h | h | h
  · have h1 := sq1 _ (key _ _ h)
    have h2 := norm2_ge_sq_x (Vec3.sub (roundVec (snapVec g p) d) (roundVec (snapVec g q) d))
    simp only [Vec3.sub, roundVec, snapVec] at h2 ⊢
    linarith
  · have h1 := sq1 _ (key _ _ h)
    have h2 := norm2_ge_sq_y (Vec3.sub (roundVec (snapVec g p) d) (roundVec (snapVec g q) d))
    simp only [Vec3.sub, roundVec, snapVec] at h2 ⊢
    linarith
  · have h1 := sq1 _ (key _ _ h)
    have h2 := norm2_ge_sq_z (Vec3.sub (roundVec (snapVec g p) d) (roundVec (snapVec g q) d))
    simp only [Vec3.sub, roundVec, snapVec] at h2 ⊢
    linarith

theorem norm2_sub_expand (a b : Vec3) :
    Vec3.norm2 (Vec3.sub a b) = Vec3.norm2 a + Vec3.norm2 b - 2 * Vec3.dot a b := by
  simp only [Vec3.norm2, Vec3.sub, Vec3.dot]
  ring

theorem norm2_add_expand (a b : Vec3) :
    Vec3.norm2 (Vec3.add a b) = Vec3.norm2 a + Vec3.norm2 b + 2 * Vec3.dot a b := by
  simp only [Vec3.norm2, Vec3.add, Vec3.dot]
  ring

theorem face_out_separation {cfg : Config} {pl : SimplePlane} {fc : FaceCalc}
    (h : computeFaceCalc cfg pl = some fc)
    (hg0 : 0 < cfg.grid_snap) (hg16 : cfg.grid_snap ≤ 16) :
    1 ≤ Vec3.norm2 (Vec3.sub fc.out1 fc.out2) ∧
    1 ≤ Vec3.norm2 (Vec3.sub fc.out1 fc.out3) ∧
    1 ≤ Vec3.norm2 (Vec3.sub fc.out2 fc.out3) := by
  obtain ⟨N, t1, t2, hN, hN2, hT1, hT2, hd1, hd12, hd2, hp1, hp2, hp3, ho1, ho2, ho3⟩ :=
    computeFaceCalc_anatomy h
  have e12x : fc.pre1.x - fc.pre2.x = 512 * t1.x := by
    rw [hp1, hp2]
    simp only [Vec3.add, Vec3.sub, Vec3.smul]
    ring
  have e12y : fc.pre1.y - fc.pre2.y = 512 * t1.y := by
    rw [hp1, hp2]
    simp only [Vec3.add, Vec3.sub, Vec3.smul]
    ring
  have e12z : fc.pre1.z - fc.pre2.z = 512 * t1.z := by
    rw [hp1, hp2]
    simp only [Vec3.add, Vec3.sub, Vec3.smul]
    ring
  have e13x : fc.pre1.x - fc.pre3.x = 256 * (Vec3.sub t1 t2).x := by
    rw [hp1, hp3]
    simp only [Vec3.add, Vec3.sub, Vec3.smul]
    ring
  have e13y : fc.pre1.y - fc.pre3.y = 256 * (Vec3.sub t1 t2).y := by
    rw [hp1, hp3]
    simp only [Vec3.add, Vec3.sub, Vec3.smul]
    ring
  have e13z : fc.pre1.z - fc.pre3.z = 256 * (Vec3.sub t1 t2).z := by
    rw [hp1, hp3]
    simp only [Vec3.add, Vec3.sub, Vec3.smul]
    ring
  have e23x : fc.pre2.x - fc.pre3.x = -(256 * (Vec3.add t1 t2).x) := by
    rw [hp2, hp3]
    simp only [Vec3.add, Vec3.sub, Vec3.smul]
    ring
  have e23y : fc.pre2.y - fc.pre3.y = -(256 * (Vec3.add t1 t2).y) := by
    rw [hp2, hp3]
    simp only [Vec3.add, Vec3.sub, Vec3.smul]
    ring
  have e23z : fc.pre2.z - fc.pre3.z = -(256 * (Vec3.add t1 t2).z) := by
    rw [hp2, hp3]
    simp only [Vec3.add, Vec3.sub, Vec3.smul]
    ring
  refine ⟨?_, ?_, ?_⟩
  · have hco := exists_coord_ge t1 (11/20) (by norm_num) (by rw [hT1]; norm_num)
    apply pair_norm2_ge_one cfg.coordinate_decimals hg0 hg16 fc.pre1 fc.pre2 _ _ ho1 ho2
    rcases hco with hc | hc | hc
    · left
      rw [e12x, abs_mul, abs_of_pos (by norm_num : (0:ℚ) < 512)]
      linarith
    · right
      left
      rw [e12y, abs_mul, abs_of_pos (by norm_num : (0:ℚ) < 512)]
      linarith
    · right
      right
      rw [e12z, abs_mul, abs_of_pos (by norm_num : (0:ℚ) < 512)]
      linarith
  · have hsub2 : Vec3.norm2 (Vec3.sub t1 t2) = 2 := by
      rw [norm2_sub_expand, hT1, hT2, hd12]
      norm_num
    have hco := exists_coord_ge (Vec3.sub t1 t2) (4/5) (by norm_num) (by rw [hsub2]; norm_num)
    apply pair_norm2_ge_one cfg.coordinate_decimals hg0 hg16 fc.pre1 fc.pre3 _ _ ho1 ho3
    rcases hco with hc | hc | hc
    · left
      rw [e13x, abs_mul, abs_of_pos (by norm_num : (0:ℚ) < 256)]
      linarith
    · right
      left
      rw [e13y, abs_mul, abs_of_pos (by norm_num : (0:ℚ) < 256)]
      linarith
    · right
      right
      rw [e13z, abs_mul, abs_of_pos (by norm_num : (0:ℚ) < 256)]
      linarith
  · have hadd2 : Vec3.norm2 (Vec3.add t1 t2) = 2 := by
      rw [norm2_add_expand, hT1, hT2, hd12]
      norm_num
    have hco := exists_coord_ge (Vec3.add t1 t2) (4/5) (by norm_num) (by rw [hadd2]; norm_num)
    apply pair_norm2_ge_one cfg.coordinate_decimals hg0 hg16 fc.pre2 fc.pre3 _ _ ho2 ho3
    rcases hco with hc | hc | hc
    · left
      rw [e23x, abs_neg, abs_mul, abs_of_pos (by norm_num : (0:ℚ) < 256)]
      linarith
    · right
      left
      rw [e23y, abs_neg, abs_mul, abs_of_pos (by norm_num : (0:ℚ) < 256)]
      linarith
    · right
      right
      rw [e23z, abs_neg, abs_mul, abs_of_pos (by norm_num : (0:ℚ) < 256)]
      linarith

/-- C2: every face present in the output has pairwise point separations of at
least the configured minimum edge length (squared-distance form): the
construction places points ±256 units apart along orthonormal tangents, so
after snapping (grid ≤ 16) and rounding every pairwise distance still exceeds
1, and the configuration bounds the minimum edge length by 1.  Faces below
the threshold therefore never appear in the output. -/
theorem C2_min_edge_separation (cfg : Config) (P : List SimplePlane) (S : List SimpleBrushSide)
    (T : List SimpleTexInfo) (b : SimpleBrush) (faces : List Face) (f : Face)
    (hmin0 : 0 ≤ cfg.min_edge_length) (hmin1 : cfg.min_edge_length ≤ 1)
    (hg0 : 0 < cfg.grid_snap) (hg16 : cfg.grid_snap ≤ 16)
    (hp : processBrush cfg P S T b = some (BrushOutcome.emitted faces))
    (hf : f ∈ faces) :
    cfg.min_edge_length ^ 2 ≤ Vec3.norm2 (Vec3.sub f.p1 f.p2) ∧
    cfg.min_edge_length ^ 2 ≤ Vec3.norm2 (Vec3.sub f.p1 f.p3) ∧
    cfg.min_edge_length ^ 2 ≤ Vec3.norm2 (Vec3.sub f.p2 f.p3) := by
  have hfaces : processFaces cfg (resolveSides P S T b) = some (some faces) := by
    simp only [processBrush] at hp
    split at hp
    · simp at hp
    · split at hp
      · simp at hp
      · split at hp
        · simp at hp
        · split at hp
          · split at hp
            · exact Option.noConfusion hp
            · simp at hp
            · rename_i fs hpf
              injection hp with hp
              injection hp with hp
              subst hp
              exact hpf
          · simp at hp
  obtain ⟨pl, otex, fc, hmem, hfc, hfeq⟩ := processFaces_mem _ faces hfaces f hf
  have hsep := face_out_separation hfc hg0 hg16
  have hme : cfg.min_edge_length ^ 2 ≤ 1 := by nlinarith
  have hfp1 : f.p1 = fc.out1 := by
    rw [hfeq]
    cases otex <;> rfl
  have hfp2 : f.p2 = fc.out2 := by
    rw [hfeq]
    cases otex <;> rfl
  have hfp3 : f.p3 = fc.out3 := by
    rw [hfeq]
    cases otex <;> rfl
  rw [hfp1, hfp2, hfp3]
  exact ⟨le_trans hme hsep.1, le_trans hme hsep.2.1, le_trans hme hsep.2.2⟩

/-- The face computation of the plane z = 0 under the default configuration. -/
def fcC2 : FaceCalc :=
  ⟨⟨0, 256, 0⟩, ⟨0, -256, 0⟩, ⟨-256, 0, 0⟩,
   ⟨0, 256, 0⟩, ⟨0, -256, 0⟩, ⟨-256, 0, 0⟩, true,
   ⟨0, 256, 0⟩, ⟨0, -256, 0⟩, ⟨-256, 0, 0⟩⟩

theorem computeFaceCalc_z0 :
    computeFaceCalc defaultConfig ⟨⟨0, 0, 1⟩, 0, 0⟩ = some fcC2 := by
  have h1 : normalize_vector ⟨0, 0, 1⟩ = some ⟨0, 0, 1⟩ :=
    normalize_of_norm2_one (by norm_num [Vec3.norm2])
  have h2 : normalize_vector (cross_product ⟨0, 0, 1⟩ ⟨1, 0, 0⟩) = some ⟨0, 1, 0⟩ := by
    have e : cross_product (⟨0, 0, 1⟩ : Vec3) ⟨1, 0, 0⟩ = ⟨0, 1, 0⟩ := by
      simp [cross_product]
    rw [e]
    exact normalize_of_norm2_one (by norm_num [Vec3.norm2])
  have h3 : normalize_vector (cross_product ⟨0, 0, 1⟩ ⟨0, 1, 0⟩) = some ⟨-1, 0, 0⟩ := by
    have e : cross_product (⟨0, 0, 1⟩ : Vec3) ⟨0, 1, 0⟩ = ⟨-1, 0, 0⟩ := by
      simp [cross_product]
    rw [e]
    exact normalize_of_norm2_one (by norm_num [Vec3.norm2])
  simp only [computeFaceCalc, defaultConfig, fcC2]
  norm_num
  rw [h1]
  norm_num [h2, h3, snapVec, snap_to_grid, pyRound, roundVec, round_coordinate,
    validate_brush_geometry, COMPILE_EPSILON, Vec3.add, Vec3.sub, Vec3.smul, Vec3.norm2]

/-- The emitted face of the z = 0 plane with no texture info available. -/
def faceC2 : Face := ⟨⟨0, 256, 0⟩, ⟨0, -256, 0⟩, ⟨-256, 0, 0⟩, FaceTex.missingDefault⟩

theorem processBrush_C2 :
    processBrush defaultConfig [⟨⟨0, 0, 1⟩, 0, 0⟩] [⟨0, 0⟩, ⟨0, 0⟩, ⟨0, 0⟩, ⟨0, 0⟩] []
        ⟨0, 4, 1⟩ = some (BrushOutcome.emitted [faceC2, faceC2, faceC2, faceC2]) := by
  have hres : resolveSides [⟨⟨0, 0, 1⟩, 0, 0⟩] [⟨0, 0⟩, ⟨0, 0⟩, ⟨0, 0⟩, ⟨0, 0⟩] []
      ⟨0, 4, 1⟩ =
      [(⟨⟨0, 0, 1⟩, 0, 0⟩, none), (⟨⟨0, 0, 1⟩, 0, 0⟩, none), (⟨⟨0, 0, 1⟩, 0, 0⟩, none),
       (⟨⟨0, 0, 1⟩, 0, 0⟩, none)] := rfl
  have hpf : processFaces defaultConfig
      [(⟨⟨0, 0, 1⟩, 0, 0⟩, none), (⟨⟨0, 0, 1⟩, 0, 0⟩, none), (⟨⟨0, 0, 1⟩, 0, 0⟩, none),
       (⟨⟨0, 0, 1⟩, 0, 0⟩, none)] = some (some [faceC2, faceC2, faceC2, faceC2]) := by
    simp only [processFaces, computeFaceCalc_z0]
    norm_num [fcC2, defaultConfig, mkFace, faceC2]
  simp only [processBrush]
  rw [hres]
  rw [if_neg (by norm_num), if_neg (by norm_num), if_neg (by decide), if_pos (by norm_num),
    hpf]

/-- C2 witness: the separation bounds on the emitted face of a 4-sided brush
over the z = 0 plane under the default configuration. -/
theorem C2_min_edge_separation_witness :
    defaultConfig.min_edge_length ^ 2 ≤ Vec3.norm2 (Vec3.sub faceC2.p1 faceC2.p2) ∧
    defaultConfig.min_edge_length ^ 2 ≤ Vec3.norm2 (Vec3.sub faceC2.p1 faceC2.p3) ∧
    defaultConfig.min_edge_length ^ 2 ≤ Vec3.norm2 (Vec3.sub faceC2.p2 faceC2.p3) :=
  C2_min_edge_separation defaultConfig [⟨⟨0, 0, 1⟩, 0, 0⟩] [⟨0, 0⟩, ⟨0, 0⟩, ⟨0, 0⟩, ⟨0, 0⟩]
    [] ⟨0, 4, 1⟩ [faceC2, faceC2, faceC2, faceC2] faceC2 (by norm_num [defaultConfig])
    (by norm_num [defaultConfig]) (by norm_num [defaultConfig]) (by norm_num [defaultConfig])
    processBrush_C2 (List.mem_cons_self _ _)

/-- A texture info whose U axis rounds to the near-zero vector (0, 0, 0.001). -/
def texDeg : SimpleTexInfo := ⟨⟨0, 0, 1/1000⟩, 0, ⟨0, -1, 0⟩, 0, 0, 0, "e1u1".toList⟩

/-- The face emitted for the z = 0 plane with `texDeg` as its texture info:
the degenerate rounded U axis is written out unchanged. -/
def faceC8 : Face :=
  ⟨⟨0, 256, 0⟩, ⟨0, -256, 0⟩, ⟨-256, 0, 0⟩,
   FaceTex.directive ⟨"e1u1".toList, ⟨0, 0, 1/1000⟩, 0, ⟨0, -1, 0⟩, 0⟩⟩

theorem processBrush_C8 :
    processBrush defaultConfig [⟨⟨0, 0, 1⟩, 0, 0⟩] [⟨0, 0⟩, ⟨0, 0⟩, ⟨0, 0⟩, ⟨0, 0⟩] [texDeg]
        ⟨0, 4, 1⟩ = some (BrushOutcome.emitted [faceC8, faceC8, faceC8, faceC8]) := by
  have hres : resolveSides [⟨⟨0, 0, 1⟩, 0, 0⟩] [⟨0, 0⟩, ⟨0, 0⟩, ⟨0, 0⟩, ⟨0, 0⟩] [texDeg]
      ⟨0, 4, 1⟩ =
      [(⟨⟨0, 0, 1⟩, 0, 0⟩, some texDeg), (⟨⟨0, 0, 1⟩, 0, 0⟩, some texDeg),
       (⟨⟨0, 0, 1⟩, 0, 0⟩, some texDeg), (⟨⟨0, 0, 1⟩, 0, 0⟩, some texDeg)] := rfl
  have hfix : fix_texture_name ['e', '1', 'u', '1'] = ['e', '1', 'u', '1'] := by decide
  have hpf : processFaces defaultConfig
      [(⟨⟨0, 0, 1⟩, 0, 0⟩, some texDeg), (⟨⟨0, 0, 1⟩, 0, 0⟩, some texDeg),
       (⟨⟨0, 0, 1⟩, 0, 0⟩, some texDeg), (⟨⟨0, 0, 1⟩, 0, 0⟩, some texDeg)] =
      some (some [faceC8, faceC8, faceC8, faceC8]) := by
    simp only [processFaces, computeFaceCalc_z0]
    norm_num [fcC2, defaultConfig, mkFace, faceC8, texDeg, hfix, roundVec, round_coordinate]
  simp only [processBrush]
  rw [hres]
  rw [if_neg (by norm_num), if_neg (by norm_num), if_neg (by decide), if_pos (by norm_num),
    hpf]

/-- C8 counterexample: a face whose rounded U texture axis has length far
below 0.01 is emitted with that degenerate axis unchanged — the canonical
default axis (1,0,0) is never substituted by this code. -/
theorem C8_counterexample :
    ∃ faces,
      processBrush defaultConfig [⟨⟨0, 0, 1⟩, 0, 0⟩] [⟨0, 0⟩, ⟨0, 0⟩, ⟨0, 0⟩, ⟨0, 0⟩]
          [texDeg] ⟨0, 4, 1⟩ = some (BrushOutcome.emitted faces) ∧
      ∃ f ∈ faces, ∃ t, f.tex = FaceTex.directive t ∧
        Vec3.norm2 t.u_axis < (1/100) ^ 2 ∧ t.u_axis ≠ ⟨1, 0, 0⟩ := by
  refine ⟨[faceC8, faceC8, faceC8, faceC8], processBrush_C8, faceC8,
    List.mem_cons_self _ _, ⟨"e1u1".toList, ⟨0, 0, 1/1000⟩, 0, ⟨0, -1, 0⟩, 0⟩, rfl,
    by norm_num [Vec3.norm2], ?_⟩
  intro h
  have hx := congrArg Vec3.x h
  norm_num at hx

/-- C8 (amended): the emitted texture directive always carries the
componentwise-rounded raw axes; even when the rounded U axis is degenerate
(length below 0.01) no default axis is substituted, and in particular the
emitted axis differs from the claimed substitute (1,0,0). -/
theorem C8_amended_no_substitution (fc : FaceCalc) (tex : SimpleTexInfo)
    (hdeg : Vec3.norm2 (roundVec tex.u_axis 3) < (1/100) ^ 2) :
    (mkFace fc (some tex)).tex = FaceTex.directive
      ⟨fix_texture_name tex.texture_name, roundVec tex.u_axis 3,
       round_coordinate tex.u_offset 2, roundVec tex.v_axis 3,
       round_coordinate tex.v_offset 2⟩ ∧
    roundVec tex.u_axis 3 ≠ ⟨1, 0, 0⟩ := by
  refine ⟨rfl, ?_⟩
  intro he
  rw [he] at hdeg
  norm_num [Vec3.norm2] at hdeg

/-- C8 witness: the amended statement at the concrete degenerate texture. -/
theorem C8_amended_no_substitution_witness :
    (mkFace fcC2 (some texDeg)).tex = FaceTex.directive
      ⟨fix_texture_name texDeg.texture_name, roundVec texDeg.u_axis 3,
       round_coordinate texDeg.u_offset 2, roundVec texDeg.v_axis 3,
       round_coordinate texDeg.v_offset 2⟩ ∧
    roundVec texDeg.u_axis 3 ≠ ⟨1, 0, 0⟩ :=
  C8_amended_no_substitution fcC2 texDeg
    (by norm_num [texDeg, roundVec, round_coordinate, Vec3.norm2])
